import Mathlib

/-!
Shallow embedding of the core numeric pipeline of `forex_matrices`
(modules `hist_data_analysis_matrices_physical.py`,
`hist_data_tools_matrices_physical.py` and
`hist_data_analysis_eigenvectors_physical.py`), together with theorems
settling the frozen claims about it.  Machine floats are modelled as exact
rationals, with an explicit `NpFloat` type for the NaN/Inf outcomes of
numpy elementwise division.
-/

namespace ForexMatrices

/-! ## Numpy float division (Year Aggregator, lines 169-172) -/

/-- Result of a numpy floating-point operation: a finite value, NaN, or ±Inf. -/
inductive NpFloat where
  | val : ℚ → NpFloat
  | nan : NpFloat
  | inf : NpFloat
  | ninf : NpFloat
deriving DecidableEq

/-- numpy `true_divide` on scalars, with exact rational finite values.
`0/0` is NaN and `±x/0` is `±Inf`; numpy emits a `RuntimeWarning` in these
cases but never raises. -/
def npDiv (n d : ℚ) : NpFloat :=
  if d = 0 then
    if n = 0 then NpFloat.nan
    else if 0 < n then NpFloat.inf
    else NpFloat.ninf
  else NpFloat.val (n / d)

/-- Line 171 of `hist_data_analysis_matrices_physical.py`:
`self_response_val = self_v_final[0] / self_v_final[1]`, the elementwise
division of the summed numerator vector by the summed denominator vector. -/
def responseCurve (nTotal dTotal : List ℚ) : List NpFloat :=
  List.zipWith npDiv nTotal dTotal

/-! ## Python name resolution of the aggregator body (lines 138-202) -/

/-- The module-global names bound in `hist_data_analysis_matrices_physical.py`
when any of its functions runs: the import block (lines 25-34), the mid-module
imports (lines 102-103) and the four module-level function definitions.
Python builtins (`print`, `open`, ...) resolve after globals and are not
listed; none of the missing names below is a builtin. -/
def matricesModuleGlobals : List String :=
  ["iprod", "mp", "os", "pickle", "Iterator", "List", "Tuple", "np", "pd",
   "hist_data_tools_matrices_physical", "plt", "sns",
   "hist_fx_returns_year_physical_data",
   "hist_fx_correlations_physical_data",
   "hist_fx_self_response_year_responses_physical_data", "main"]

/-- The sequence of non-builtin global names dereferenced by the body of
`hist_fx_self_response_year_responses_physical_data`, in execution order
(lines 151-200): the function's own name (line 151), the tools module
(lines 153, 156), `iprod` (line 159), `mp` (lines 163), the week kernel
(line 165), `np` (line 169), `os` (lines 175-197), the tools module again
(line 199). -/
def aggregatorGlobalRefs : List String :=
  ["hist_fx_self_response_year_responses_physical_data",
   "hist_data_tools_responses_physical",
   "hist_data_tools_responses_physical",
   "iprod", "mp", "mp",
   "hist_fx_self_response_week_responses_physical_data",
   "np", "os", "os", "os", "os",
   "hist_data_tools_responses_physical"]

/-- First name of `refs` not bound in `globals`: where CPython raises
`NameError`. -/
def firstUndefinedGlobal (globals refs : List String) : Option String :=
  refs.find? (fun n => !(globals.contains n))

/-- Outcome of running a Python function body. -/
inductive PyResult (α : Type) where
  | ok : α → PyResult α
  | nameError : String → PyResult α
deriving DecidableEq

/-- Running `hist_fx_self_response_year_responses_physical_data(fx_pair, year)`:
the body dereferences its global names in `aggregatorGlobalRefs` order and
raises `NameError` at the first unbound one, before any computation or save;
only if every name resolved would the curve/average tuple be produced. -/
def aggregatorRun (_fxPair _year : String) : PyResult (List NpFloat × List ℚ) :=
  match firstUndefinedGlobal matricesModuleGlobals aggregatorGlobalRefs with
  | some n => PyResult.nameError n
  | none => PyResult.ok ([], [])

/-! ## Year return-table build (lines 39-98) -/

/-- `hist_weeks` (tools module, lines 214-231): the strings "01".."53". -/
def histWeeks : List String :=
  (List.range' 1 53).map (fun v => if v < 10 then "0" ++ toString v else toString v)

/-- One iteration of the week loop (line 72): concatenate the next week's
`Returns` column; a `FileNotFoundError` (store gives `none`) propagates, and
an already-raised error stays raised. -/
def concatWeek (store : String → String → Option (List ℚ)) (fxPair : String)
    (acc : Option (List ℚ)) (w : String) : Option (List ℚ) :=
  match acc, store fxPair w with
  | some xs, some ys => some (xs ++ ys)
  | _, _ => none

/-- Lines 56-74: load one pair's week-"01" `Returns` column, then fold the
remaining weeks in order, concatenating. -/
def loadPairReturns (store : String → String → Option (List ℚ))
    (fxPair : String) : Option (List ℚ) :=
  match store fxPair "01" with
  | none => none
  | some first => histWeeks.tail.foldl (concatWeek store fxPair) (some first)

/-- One iteration of the pair loop (lines 56-74): append the pair's year
column to the table, propagating any `FileNotFoundError`. -/
def appendPair (store : String → String → Option (List ℚ))
    (acc : Option (List (String × List ℚ))) (p : String) :
    Option (List (String × List ℚ)) :=
  match acc, loadPairReturns store p with
  | some tab, some col => some (tab ++ [(p, col)])
  | _, _ => none

/-- `hist_fx_returns_year_physical_data` (lines 39-98): one `try` block wraps
the whole loop over `fx_pairs` and the final `pickle.dump`; a
`FileNotFoundError` anywhere is caught at the top level, after which nothing
is saved.  `some table` models the persisted year table (pair, concatenated
returns column); `none` models the caught exception with no save. -/
def hist_fx_returns_year_physical_data
    (store : String → String → Option (List ℚ)) (fxPairs : List String) :
    Option (List (String × List ℚ)) :=
  fxPairs.foldl (appendPair store) (some [])

/-- Concrete store for the build-abort scenario: every weekly partition
present (an arbitrary one-sample column), except week "02" of pair "b". -/
def storeC3 : String → String → Option (List ℚ) :=
  fun p w => if p = "b" ∧ w = "02" then none else some [1]

/-- Concrete store missing week "01" of every pair. -/
def storeW01 : String → String → Option (List ℚ) :=
  fun _ w => if w = "01" then none else some [1]

/-! ## Pearson correlation, pairwise complete (pandas `DataFrame.corr`) -/

/-- Rows where both columns are non-missing: pandas pairwise-complete
observations.  A column is a list of optional rationals (missing = `none`). -/
def pairRows (x y : List (Option ℚ)) : List (ℚ × ℚ) :=
  (x.zip y).filterMap
    (fun ab =>
      match ab with
      | (some a, some b) => some (a, b)
      | _ => none)

/-- Mean of the first coordinates (rational division; `s = []` gives `0/0 = 0`,
in which case the entry is `none` anyway). -/
def meanFst (s : List (ℚ × ℚ)) : ℚ := (s.map Prod.fst).sum / s.length

/-- Mean of the second coordinates. -/
def meanSnd (s : List (ℚ × ℚ)) : ℚ := (s.map Prod.snd).sum / s.length

/-- Centered cross-product sum of the common rows. -/
def covC (s : List (ℚ × ℚ)) : ℚ :=
  (s.map (fun p => (p.1 - meanFst s) * (p.2 - meanSnd s))).sum

/-- Centered square sum of the first column over the common rows. -/
def varFst (s : List (ℚ × ℚ)) : ℚ :=
  (s.map (fun p => (p.1 - meanFst s) ^ 2)).sum

/-- Centered square sum of the second column over the common rows. -/
def varSnd (s : List (ℚ × ℚ)) : ℚ :=
  (s.map (fun p => (p.2 - meanSnd s) ^ 2)).sum

/-- One entry of `fx_returns.corr()` (line 121): Pearson correlation of two
columns over pairwise-complete observations.  The true value is
`cov / √(vx·vy)`; to stay in exact rational arithmetic the entry is
represented as the pair `(cov, vx·vy)` (so the entry equals `1` iff
`cov > 0 ∧ cov² = vx·vy`, and lies in `[−1,1]` iff `cov² ≤ vx·vy`).
`none` models pandas NaN: no common observation, or a zero-variance divisor. -/
def corrEntry (x y : List (Option ℚ)) : Option (ℚ × ℚ) :=
  if (pairRows x y).length = 0 then none
  else if varFst (pairRows x y) * varSnd (pairRows x y) = 0 then none
  else some (covC (pairRows x y), varFst (pairRows x y) * varSnd (pairRows x y))

/-- A return table: one optional-rational column per instrument. -/
def pearsonMatrix (tab : List (List (Option ℚ))) :
    List (List (Option (ℚ × ℚ))) :=
  tab.map (fun x => tab.map (fun y => corrEntry x y))

/-! ## Correlation Matrix Builder (lines 105-133) -/

/-- What one run of `hist_fx_correlations_physical_data` produces: the list of
correlation matrices it computes (each only displayed as a heatmap) and the
keys it persists through `pickle.dump`. -/
structure CorrRunResult where
  computed : List (List (List (Option (ℚ × ℚ))))
  savedKeys : List String

/-- `hist_fx_correlations_physical_data(year, interval)` (lines 105-133):
loads the whole-year return table (absent table: `FileNotFoundError`, caught,
nothing happens), computes `fx_returns.corr()` once over the entire table,
draws a seaborn heatmap and calls `plt.show()`.  The `interval` argument is
never read and nothing is saved. -/
def hist_fx_correlations_physical_data
    (table : Option (List (List (Option ℚ)))) (_year _interval : String) :
    CorrRunResult :=
  match table with
  | none => ⟨[], []⟩
  | some tab => ⟨[pearsonMatrix tab], []⟩

/-! ## Eigen-Mode Extractor (hist_data_analysis_eigenvectors_physical.py) -/

/-- Lines 52-60: periods per interval kind; `year` and any other string fall
into the `else` branch (its `periods = 4` is unused on the `year` path). -/
def periodsOf (interval : String) : Nat :=
  if interval = "week" then 52 else if interval = "month" then 12 else 4

/-- Lines 96-99: two-digit index string. -/
def tIdxStr (t : Nat) : String :=
  if t < 10 then "0" ++ toString t else toString t

/-- The loop of lines 94-121, run inside the single `try` of line 48: each
iteration loads the pickle for its index and saves its output; the first
missing pickle raises `FileNotFoundError`, aborting every remaining
iteration (earlier saves persist).  `store` maps an index string to the
loaded correlation matrix, `save` is the eigen-decomposition + sort + save
step applied to it; the result lists the (index key, saved value) pairs. -/
def eigLoop (store : String → Option α) (save : α → β) :
    List Nat → List (String × β)
  | [] => []
  | t :: ts =>
      match store (tIdxStr t) with
      | none => []
      | some m => (tIdxStr t, save m) :: eigLoop store save ts

/-- `hist_fx_eigenvectors_physical_data(year, interval)` (lines 34-130):
the `year` kind loads the single file "01"; other kinds loop the indices
1..periods inside one `try`.  Returns the saved (key, value) pairs. -/
def hist_fx_eigenvectors_physical_data (store : String → Option α)
    (save : α → β) (interval : String) : List (String × β) :=
  if interval = "year" then
    match store "01" with
    | none => []
    | some m => [("01", save m)]
  else eigLoop store save (List.range' 1 (periodsOf interval))

/-- Concrete correlation-matrix store for the skip scenario: every index
available except "02". -/
def storeC5 : String → Option Unit :=
  fun s => if s = "02" then none else some ()

/-! ## Eigen-mode sorting (lines 72-83 / 107-118) -/

/-- The (index, eigenvalue) pairs `np.argsort` works on. -/
def idxPairs (lam : List ℚ) : List (Nat × ℚ) :=
  (List.range lam.length).map (fun i => (i, lam.getD i 0))

/-- Ordering modelling `np.argsort` on real eigenvalues: ascending by value,
ties by original index (stable). -/
def argsortLE (p q : Nat × ℚ) : Prop :=
  p.2 < q.2 ∨ (p.2 = q.2 ∧ p.1 ≤ q.1)

instance : DecidableRel argsortLE :=
  fun p q => inferInstanceAs (Decidable (p.2 < q.2 ∨ (p.2 = q.2 ∧ p.1 ≤ q.1)))

instance : IsTotal (Nat × ℚ) argsortLE :=
  ⟨fun p q => by
    rcases lt_trichotomy p.2 q.2 with h | h | h
    · exact Or.inl (Or.inl h)
    · rcases Nat.le_total p.1 q.1 with h1 | h1
      · exact Or.inl (Or.inr ⟨h, h1⟩)
      · exact Or.inr (Or.inr ⟨h.symm, h1⟩)
    · exact Or.inr (Or.inl h)⟩

instance : IsTrans (Nat × ℚ) argsortLE :=
  ⟨fun p q r hpq hqr => by
    rcases hpq with h1 | ⟨e1, l1⟩
    · rcases hqr with h2 | ⟨e2, _⟩
      · exact Or.inl (h1.trans h2)
      · exact Or.inl (e2 ▸ h1)
    · rcases hqr with h2 | ⟨e2, l2⟩
      · exact Or.inl (e1 ▸ h2)
      · exact Or.inr ⟨e1.trans e2, l1.trans l2⟩⟩

/-- `np.argsort(eig_val)`: indices ordered by ascending eigenvalue. -/
def argsort (lam : List ℚ) : List Nat :=
  (List.insertionSort argsortLE (idxPairs lam)).map Prod.fst

/-- `np.argsort(eig_val)[::-1]`: the column permutation applied to the
eigenvector matrix (line 76 / 111), descending eigenvalue order. -/
def eigPerm (lam : List ℚ) : List Nat := (argsort lam).reverse

/-- The eigenvalue attached to each output mode position. -/
def sortedEigenvalues (lam : List ℚ) : List ℚ :=
  (eigPerm lam).map (fun i => lam.getD i 0)

/-- `eig_vec[:, np.argsort(eig_val)[::-1]]` (line 76 / 111): the eigenvector
columns reordered; each column (a full row-vector over instruments) is moved
unchanged, so rows stay in the original instrument order. -/
def sortedEigVecCols (cols : List α) (d : α) (lam : List ℚ) : List α :=
  (eigPerm lam).map (fun i => cols.getD i d)

/-- `fx_corr.columns[np.argsort(eig_val)][::-1]` (lines 79-80 / 114-115):
the column labels indexed by the ascending argsort, then reversed. -/
def sortedColLabels (labels : List α) (d : α) (lam : List ℚ) : List α :=
  ((argsort lam).map (fun i => labels.getD i d)).reverse

/-! ## Self-Response Kernel (modelled from the spec) -/

/-- Modelled from the spec: the Self-Response Kernel
`hist_fx_self_response_week_responses_physical_data` is absent from `src/`
(only its caller at line 165 appears); §4.1 defines it.  Alignment:
`midpoint' = M[:-1]`. -/
def alignedMid (M : List ℚ) : List ℚ := M.dropLast

/-- Modelled from the spec: alignment `sign' = S[1:]`. -/
def alignedSign (S : List ℤ) : List ℤ := S.tail

/-- Modelled from the spec: for lag `τ`,
`return_τ[i] = (midpoint'[i+τ+1] − midpoint'[i]) / midpoint'[i]` for all `i`
with `i+τ+1 < len(midpoint')`. -/
def lagReturns (mp : List ℚ) (τ : Nat) : List ℚ :=
  (List.range (mp.length - (τ + 1))).map
    (fun i => (mp.getD (i + τ + 1) 0 - mp.getD i 0) / mp.getD i 0)

/-- Modelled from the spec: `sign_τ = sign'[:-τ-1]`, the tail-trimmed sign
vector index-aligned with `return_τ`. -/
def lagSigns (sg : List ℤ) (τ : Nat) : List ℤ :=
  sg.take (sg.length - (τ + 1))

/-- Modelled from the spec (§4.1): the week kernel.  For each lag `τ < T`,
`numerator[τ] = Σ return_τ[i] · sign_τ[i]` (zero signs contribute 0) and
`denominator[τ] = #{i | sign_τ[i] ≠ 0}`. -/
def kernelWeek (M : List ℚ) (S : List ℤ) (T : Nat) : List ℚ × List Nat :=
  ((List.range T).map (fun τ =>
      (List.zipWith (fun r s => r * (s : ℚ))
        (lagReturns (alignedMid M) τ) (lagSigns (alignedSign S) τ)).sum),
   (List.range T).map (fun τ =>
      ((lagSigns (alignedSign S) τ).filter (fun s => s ≠ 0)).length))

/-! ## Theorems -/

theorem responseCurve_getD (N D : List ℚ) (τ : Nat) (hN : τ < N.length)
    (hD : τ < D.length) (x : NpFloat) :
    (responseCurve N D).getD τ x = npDiv (N.getD τ 0) (D.getD τ 0) := by
  induction N generalizing D τ with
  | nil => simp at hN
  | cons a as ih =>
    cases D with
    | nil => simp at hD
    | cons b bs =>
      cases τ with
      | zero => simp [responseCurve]
      | succ t =>
        simp only [List.length_cons, Nat.succ_lt_succ_iff] at hN hD
        simpa [responseCurve] using ih bs t hN hD

/-- C1 counterexample: with `N_total = [0]`, `D_total = [0]` the summed
denominator at lag 0 is 0, yet the unguarded division of line 171 yields NaN,
not 0. -/
theorem claim_C1_counterexample :
    [(0 : ℚ)].getD 0 1 = 0 ∧
    (responseCurve [0] [0]).getD 0 (NpFloat.val 0) = NpFloat.nan ∧
    NpFloat.nan ≠ NpFloat.val 0 := by
  refine ⟨rfl, ?_, by simp⟩
  simp [responseCurve, npDiv]

/-- C1 amended: at every lag `τ` with `D_total[τ] = 0` the elementwise
division raises no error and the curve stays total (length `min`), but the
entry is NaN when `N_total[τ] = 0` and `±Inf` otherwise — never the finite
value 0. -/
theorem claim_C1_amended (N D : List ℚ) (τ : Nat) (hN : τ < N.length)
    (hD : τ < D.length) (h0 : D.getD τ 0 = 0) :
    (responseCurve N D).length = min N.length D.length ∧
    (responseCurve N D).getD τ (NpFloat.val 0) =
      (if N.getD τ 0 = 0 then NpFloat.nan
       else if 0 < N.getD τ 0 then NpFloat.inf else NpFloat.ninf) := by
  refine ⟨by simp [responseCurve], ?_⟩
  rw [responseCurve_getD N D τ hN hD, h0]
  simp [npDiv]

/-- Witness for C1 amended at `N_total = [0]`, `D_total = [0]`, `τ = 0`. -/
theorem claim_C1_amended_witness :
    (responseCurve [0] [0]).length = min [(0 : ℚ)].length [(0 : ℚ)].length ∧
    (responseCurve [0] [0]).getD 0 (NpFloat.val 0) =
      (if [(0 : ℚ)].getD 0 0 = 0 then NpFloat.nan
       else if 0 < [(0 : ℚ)].getD 0 0 then NpFloat.inf else NpFloat.ninf) :=
  claim_C1_amended [0] [0] 0 (by simp) (by simp) rfl

/-- C2: every invocation of the year aggregator raises `NameError` on
`hist_data_tools_responses_physical` (line 153) before any computation or
save; neither that module nor the week kernel name is bound in the module's
globals. -/
theorem claim_C2 :
    (∀ fxPair year : String,
      aggregatorRun fxPair year =
        PyResult.nameError "hist_data_tools_responses_physical") ∧
    "hist_data_tools_responses_physical" ∉ matricesModuleGlobals ∧
    "hist_fx_self_response_week_responses_physical_data" ∉
      matricesModuleGlobals :=
  ⟨fun _ _ => rfl, by decide, by decide⟩

theorem foldl_concatWeek_none (store : String → String → Option (List ℚ))
    (p : String) (ws : List String) :
    ws.foldl (concatWeek store p) none = none := by
  induction ws with
  | nil => rfl
  | cons w ws ih =>
    have h : concatWeek store p none w = none := by
      cases store p w <;> rfl
    simp [h, ih]

theorem foldl_concatWeek_mem_none (store : String → String → Option (List ℚ))
    (p : String) (ws : List String) (w : String) (hw : w ∈ ws)
    (habs : store p w = none) (init : Option (List ℚ)) :
    ws.foldl (concatWeek store p) init = none := by
  induction ws generalizing init with
  | nil => simp at hw
  | cons a as ih =>
    rcases List.mem_cons.mp hw with h | h
    · subst h
      have hstep : concatWeek store p init w = none := by
        cases init <;> simp [concatWeek, habs]
      simp [hstep, foldl_concatWeek_none]
    · rw [List.foldl_cons]
      exact ih h _

theorem loadPairReturns_eq_none (store : String → String → Option (List ℚ))
    (p w : String) (hw : w ∈ histWeeks) (habs : store p w = none) :
    loadPairReturns store p = none := by
  unfold loadPairReturns
  cases h01 : store p "01" with
  | none => rfl
  | some first =>
    have hcons : histWeeks = "01" :: histWeeks.tail := rfl
    rw [hcons] at hw
    rcases List.mem_cons.mp hw with h | h
    · subst h
      rw [h01] at habs
      exact absurd habs (by simp)
    · exact foldl_concatWeek_mem_none store p _ w h habs (some first)

theorem foldl_appendPair_none (store : String → String → Option (List ℚ))
    (ps : List String) : ps.foldl (appendPair store) none = none := by
  induction ps with
  | nil => rfl
  | cons p ps ih =>
    have h : appendPair store none p = none := by
      cases loadPairReturns store p <;> rfl
    simp [h, ih]

/-- C3 counterexample: pairs `["a", "b"]` with only the single partition
(`"b"`, week "02") absent.  The whole build aborts: nothing is persisted
(result `none`), instead of a table that merely omits pair "b". -/
theorem claim_C3_counterexample :
    hist_fx_returns_year_physical_data storeC3 ["a", "b"] = none ∧
    storeC3 "b" "02" = none ∧ storeC3 "a" "02" = some [1] ∧
    storeC3 "b" "03" = some [1] := by
  refine ⟨?_, by decide, by decide, by decide⟩
  decide

/-- C3 amended: a missing instrument/week partition aborts the whole year's
build — the `FileNotFoundError` is caught only at the outermost level, so no
table at all is persisted for that year (no instrument is omitted
selectively). -/
theorem claim_C3_amended (store : String → String → Option (List ℚ))
    (fxPairs : List String) (p : String) (hp : p ∈ fxPairs) (w : String)
    (hw : w ∈ histWeeks) (habs : store p w = none) :
    hist_fx_returns_year_physical_data store fxPairs = none := by
  have hload : loadPairReturns store p = none :=
    loadPairReturns_eq_none store p w hw habs
  unfold hist_fx_returns_year_physical_data
  generalize (some [] : Option (List (String × List ℚ))) = init
  induction fxPairs generalizing init with
  | nil => simp at hp
  | cons a as ih =>
    rcases List.mem_cons.mp hp with h | h
    · subst h
      have hstep : appendPair store init p = none := by
        cases init <;> simp [appendPair, hload]
      simp [hstep, foldl_appendPair_none]
    · rw [List.foldl_cons]
      exact ih h _

/-- Witness for C3 amended: one pair whose week "01" is missing. -/
theorem claim_C3_amended_witness :
    hist_fx_returns_year_physical_data storeW01 ["a"] = none :=
  claim_C3_amended storeW01 ["a"] "a" (by decide) "01" (by decide) (by decide)

/-- C4: evaluation of `hist_fx_correlations_physical_data` on any available
return table, for any year and interval kind: it computes exactly one
Pearson matrix — over the whole table, the interval argument being ignored —
and persists nothing, contradicting both the claim and the function's own
docstring ("The function saves the data in a file"). -/
theorem claim_C4_code_eval :
    ∀ (tab : List (List (Option ℚ))) (year interval : String),
      (hist_fx_correlations_physical_data (some tab) year interval).savedKeys
        = [] ∧
      (hist_fx_correlations_physical_data (some tab) year interval).computed
        = [pearsonMatrix tab] :=
  fun _ _ _ => ⟨rfl, rfl⟩

/-- C5 counterexample: interval `quarter` with only the index-"02" matrix
missing.  The run writes index "01" only; index "03" is available but never
processed, because the single `try` aborts the remaining indices. -/
theorem claim_C5_counterexample :
    (hist_fx_eigenvectors_physical_data storeC5 (fun m => m) "quarter").map
        Prod.fst = ["01"] ∧
    storeC5 "03" = some () ∧
    "03" ∉ (hist_fx_eigenvectors_physical_data storeC5 (fun m => m)
        "quarter").map Prod.fst := by
  refine ⟨by decide, by decide, by decide⟩

/-- C5 amended: within one invocation, the saved indices are exactly the
maximal available prefix — everything at or after the first missing index is
skipped, even if available.  Sibling interval kinds run as separate
invocations and are unaffected. -/
theorem claim_C5_amended (store : String → Option α) (save : α → β)
    (interval : String) (h : interval ≠ "year") :
    (hist_fx_eigenvectors_physical_data store save interval).map Prod.fst =
      ((List.range' 1 (periodsOf interval)).takeWhile
        (fun t => (store (tIdxStr t)).isSome)).map tIdxStr := by
  unfold hist_fx_eigenvectors_physical_data
  rw [if_neg h]
  generalize List.range' 1 (periodsOf interval) = ts
  induction ts with
  | nil => rfl
  | cons t ts ih =>
    cases hs : store (tIdxStr t) with
    | none => simp [eigLoop, hs, List.takeWhile_cons, Option.isSome]
    | some m => simp [eigLoop, hs, List.takeWhile_cons, Option.isSome, ih]

/-- Witness for C5 amended at the `month` kind with index "02" missing. -/
theorem claim_C5_amended_witness :
    (hist_fx_eigenvectors_physical_data storeC5 (fun m => m) "month").map
        Prod.fst =
      ((List.range' 1 (periodsOf "month")).takeWhile
        (fun t => (storeC5 (tIdxStr t)).isSome)).map tIdxStr :=
  claim_C5_amended storeC5 (fun m => m) "month" (by decide)

theorem map_range_getD {α : Type} (f : Nat → α) (T τ : Nat) (d : α)
    (h : τ < T) : ((List.range T).map f).getD τ d = f τ := by
  rw [List.getD_eq_getElem?_getD, List.getElem?_map, List.getElem?_range h]
  rfl

/-- C10: the spec-modelled Self-Response Kernel on
`midpoint = [1.0, 1.01, 1.02, 1.03]`, `sign = [0, 1, -1, 1]`, `T = 2`
produces at lag 0 the numerator `(1.01−1)/1·1 + ((1.02−1.01)/1.01)·(−1)`
(exactly `1/10100`) and denominator 2; in general `numerator[τ]` is the sum
of `return_τ[i] · sign_τ[i]` over the aligned range and `denominator[τ]`
counts the nonzero aligned signs. -/
theorem claim_C10 :
    (kernelWeek [1, 101/100, 102/100, 103/100] [0, 1, -1, 1] 2).1.getD 0 0 =
      ((101/100 - 1) / 1) * 1 + ((102/100 - 101/100) / (101/100)) * (-1) ∧
    (kernelWeek [1, 101/100, 102/100, 103/100] [0, 1, -1, 1] 2).1.getD 0 0 =
      1/10100 ∧
    (kernelWeek [1, 101/100, 102/100, 103/100] [0, 1, -1, 1] 2).2.getD 0 0 =
      2 ∧
    (∀ (M : List ℚ) (S : List ℤ) (T τ : Nat), τ < T →
      (kernelWeek M S T).1.getD τ 0 =
        (List.zipWith (fun r s => r * (s : ℚ))
          (lagReturns (alignedMid M) τ) (lagSigns (alignedSign S) τ)).sum ∧
      (kernelWeek M S T).2.getD τ 0 =
        ((lagSigns (alignedSign S) τ).filter (fun s => s ≠ 0)).length) := by
  refine ⟨?_, ?_, ?_, ?_⟩
  · simp [kernelWeek, alignedMid, alignedSign, lagReturns, lagSigns,
      List.range_succ]
  · simp [kernelWeek, alignedMid, alignedSign, lagReturns, lagSigns,
      List.range_succ]
    norm_num
  · simp [kernelWeek, alignedMid, alignedSign, lagSigns, List.range_succ]
  · intro M S T τ h
    exact ⟨map_range_getD _ T τ 0 h, map_range_getD _ T τ 0 h⟩

/-- Witness for C10's general clause at `M = [1, 2, 4]`, `S = [1, 0, -1]`,
`T = 2`, `τ = 0`. -/
theorem claim_C10_witness :
    (kernelWeek [1, 2, 4] [1, 0, -1] 2).1.getD 0 0 =
      (List.zipWith (fun r s => r * (s : ℚ))
        (lagReturns (alignedMid [1, 2, 4]) 0)
        (lagSigns (alignedSign [1, 0, -1]) 0)).sum ∧
    (kernelWeek [1, 2, 4] [1, 0, -1] 2).2.getD 0 0 =
      ((lagSigns (alignedSign [(1 : ℤ), 0, -1]) 0).filter
        (fun s => s ≠ 0)).length :=
  claim_C10.2.2.2 [1, 2, 4] [1, 0, -1] 2 0 (by decide)

theorem range_map_getD {α : Type} (l : List α) (d : α) :
    (List.range l.length).map (fun i => l.getD i d) = l := by
  refine List.ext_getElem (by simp) (fun i h1 h2 => ?_)
  simp [List.getD_eq_getElem l d h2, List.getElem?_eq_getElem h2]

theorem idxPairs_map_snd (lam : List ℚ) :
    (idxPairs lam).map Prod.snd = lam := by
  rw [idxPairs, List.map_map]
  exact range_map_getD lam 0

theorem idxPairs_map_fst (lam : List ℚ) :
    (idxPairs lam).map Prod.fst = List.range lam.length := by
  rw [idxPairs, List.map_map]
  exact List.map_id _

theorem mem_idxPairs (lam : List ℚ) (i : Nat) (v : ℚ) :
    (i, v) ∈ idxPairs lam ↔ i < lam.length ∧ v = lam.getD i 0 := by
  simp only [idxPairs, List.mem_map, List.mem_range, Prod.mk.injEq]
  constructor
  · rintro ⟨a, ha, rfl, rfl⟩
    exact ⟨ha, rfl⟩
  · rintro ⟨hi, rfl⟩
    exact ⟨i, hi, rfl, rfl⟩

theorem snd_of_mem_sortPairs (lam : List ℚ) (p : Nat × ℚ)
    (hp : p ∈ List.insertionSort argsortLE (idxPairs lam)) :
    p.2 = lam.getD p.1 0 := by
  have hmem : p ∈ idxPairs lam :=
    (List.perm_insertionSort argsortLE (idxPairs lam)).mem_iff.mp hp
  exact ((mem_idxPairs lam p.1 p.2).mp hmem).2

theorem sortedEigenvalues_eq (lam : List ℚ) :
    sortedEigenvalues lam =
      ((List.insertionSort argsortLE (idxPairs lam)).map Prod.snd).reverse := by
  unfold sortedEigenvalues eigPerm argsort
  rw [List.map_reverse, List.map_map]
  congr 1
  refine List.map_eq_map_iff.mpr (fun p hp => ?_)
  exact (snd_of_mem_sortPairs lam p hp).symm

theorem sortedEigenvalues_perm (lam : List ℚ) :
    (sortedEigenvalues lam).Perm lam := by
  rw [sortedEigenvalues_eq]
  refine (List.reverse_perm _).trans ?_
  have h := (List.perm_insertionSort argsortLE (idxPairs lam)).map Prod.snd
  rw [idxPairs_map_snd] at h
  exact h

theorem sortedEigenvalues_sorted (lam : List ℚ) :
    List.Sorted (· ≥ ·) (sortedEigenvalues lam) := by
  rw [sortedEigenvalues_eq]
  rw [List.Sorted, List.pairwise_reverse]
  refine List.Pairwise.map Prod.snd (fun p q hpq => ?_)
    (List.sorted_insertionSort argsortLE (idxPairs lam))
  rcases hpq with h | ⟨h, _⟩
  · exact le_of_lt h
  · exact le_of_eq h

/-- C6: the eigen-mode reordering `eig_vec[:, np.argsort(eig_val)[::-1]]`
pairs output column `k` with `sortedEigenvalues lam k`; these eigenvalues
are monotonically non-increasing across output columns, and the eigenvalue
of mode 0 bounds every eigenvalue of the input matrix (mode 0 is the
eigenvector of the largest eigenvalue). -/
theorem claim_C6 (lam : List ℚ) :
    List.Sorted (· ≥ ·) (sortedEigenvalues lam) ∧
    ∀ x ∈ lam, ∃ m, (sortedEigenvalues lam).head? = some m ∧ x ≤ m := by
  refine ⟨sortedEigenvalues_sorted lam, fun x hx => ?_⟩
  have hmem : x ∈ sortedEigenvalues lam :=
    ((sortedEigenvalues_perm lam).mem_iff).mpr hx
  have hsorted := sortedEigenvalues_sorted lam
  cases h : sortedEigenvalues lam with
  | nil => rw [h] at hmem; simp at hmem
  | cons m t =>
    rw [h] at hmem hsorted
    refine ⟨m, rfl, ?_⟩
    rcases List.mem_cons.mp hmem with h1 | hmt
    · exact le_of_eq h1
    · exact List.rel_of_sorted_cons hsorted x hmt

/-- Witness for C6 at `λ = [1, 3, 2]`. -/
theorem claim_C6_witness :
    ∃ m, (sortedEigenvalues [(1 : ℚ), 3, 2]).head? = some m ∧ (3 : ℚ) ≤ m :=
  (claim_C6 [1, 3, 2]).2 3 (by decide)

/-- C7 counterexample: for `λ = [1, 1]` the two eigenvalues are equal, yet
the output ordering `eigPerm` is `[1, 0]`: the smaller original index 0 does
NOT appear first (the claimed stable first-seen tie-break fails). -/
theorem claim_C7_counterexample :
    (0 : Nat) < 1 ∧ 1 < [(1 : ℚ), 1].length ∧
    [(1 : ℚ), 1].getD 0 0 = [(1 : ℚ), 1].getD 1 0 ∧
    ¬ List.Sublist [0, 1] (eigPerm [(1 : ℚ), 1]) := by
  refine ⟨by decide, by decide, by decide, by decide⟩

theorem pairwise_sublist_of_not_rel {α : Type} {r : α → α → Prop} :
    ∀ {l : List α}, l.Pairwise r → ∀ {a b : α}, a ∈ l → b ∈ l → a ≠ b →
      ¬ r b a → List.Sublist [a, b] l := by
  intro l
  induction l with
  | nil => intro _ a b ha; simp at ha
  | cons x t ih =>
    intro hp a b ha hb hab hnr
    rcases List.pairwise_cons.mp hp with ⟨hx, ht⟩
    rcases List.mem_cons.mp ha with rfl | hat
    · have hbt : b ∈ t := by
        rcases List.mem_cons.mp hb with rfl | hbt
        · exact absurd rfl hab
        · exact hbt
      exact (List.singleton_sublist.mpr hbt).cons₂ a
    · rcases List.mem_cons.mp hb with rfl | hbt
      · exact absurd (hx a hat) hnr
      · exact (ih ht hat hbt hab hnr).cons x

/-- C7 amended: the tie-break is reversed-stable, not stable: the ascending
`np.argsort` puts the smaller original index first among equal eigenvalues,
and the `[::-1]` reversal therefore puts the LARGER original index first in
the output ordering. -/
theorem claim_C7_amended (lam : List ℚ) (i j : Nat) (hij : i < j)
    (hj : j < lam.length) (heq : lam.getD i 0 = lam.getD j 0) :
    List.Sublist [j, i] (eigPerm lam) := by
  have hi : i < lam.length := hij.trans hj
  have hmemi : (i, lam.getD i 0) ∈ idxPairs lam :=
    (mem_idxPairs lam i _).mpr ⟨hi, rfl⟩
  have hmemj : (j, lam.getD i 0) ∈ idxPairs lam :=
    (mem_idxPairs lam j _).mpr ⟨hj, heq⟩
  have hperm := List.perm_insertionSort argsortLE (idxPairs lam)
  have hmemi' : (i, lam.getD i 0) ∈ List.insertionSort argsortLE (idxPairs lam) :=
    hperm.mem_iff.mpr hmemi
  have hmemj' : (j, lam.getD i 0) ∈ List.insertionSort argsortLE (idxPairs lam) :=
    hperm.mem_iff.mpr hmemj
  have hne : ((i, lam.getD i 0) : Nat × ℚ) ≠ (j, lam.getD i 0) := by
    intro h
    exact absurd (congrArg Prod.fst h) (Nat.ne_of_lt hij)
  have hnr : ¬ argsortLE (j, lam.getD i 0) (i, lam.getD i 0) := by
    rintro (h | ⟨_, h⟩)
    · exact lt_irrefl _ h
    · exact absurd h (Nat.not_le.mpr hij)
  have hsub : List.Sublist [(i, lam.getD i 0), (j, lam.getD i 0)]
      (List.insertionSort argsortLE (idxPairs lam)) :=
    pairwise_sublist_of_not_rel
      (List.sorted_insertionSort argsortLE (idxPairs lam))
      hmemi' hmemj' hne hnr
  have hmap := hsub.map Prod.fst
  exact List.reverse_sublist.mpr hmap

/-- Witness for C7 amended at `λ = [1, 1]`, `i = 0`, `j = 1`. -/
theorem claim_C7_amended_witness :
    List.Sublist [1, 0] (eigPerm [(1 : ℚ), 1]) :=
  claim_C7_amended [1, 1] 0 1 (by decide) (by decide) (by decide)

/-- C8: `fx_corr.columns[np.argsort(eig_val)][::-1]` — indexing the labels by
the ascending argsort and then reversing — equals the labels permuted by the
very permutation `np.argsort(eig_val)[::-1]` that reorders the eigenvector
columns; consequently the attached label sequence is a permutation of the
original instrument labels (rows are untouched by the column reindexing). -/
theorem claim_C8 {α : Type} (lam : List ℚ) (labels : List α) (d : α)
    (h : labels.length = lam.length) :
    sortedColLabels labels d lam = sortedEigVecCols labels d lam ∧
    (sortedColLabels labels d lam).Perm labels := by
  have heq : sortedColLabels labels d lam = sortedEigVecCols labels d lam := by
    unfold sortedColLabels sortedEigVecCols eigPerm
    rw [List.map_reverse]
  refine ⟨heq, ?_⟩
  rw [heq]
  unfold sortedEigVecCols
  have hperm : (eigPerm lam).Perm (List.range lam.length) := by
    refine (List.reverse_perm _).trans ?_
    have hp := (List.perm_insertionSort argsortLE (idxPairs lam)).map Prod.fst
    rw [idxPairs_map_fst] at hp
    exact hp
  refine (hperm.map _).trans ?_
  rw [← h, range_map_getD labels d]

/-- Witness for C8 at `λ = [1, 3, 2]`, labels `["a", "b", "c"]`. -/
theorem claim_C8_witness :
    sortedColLabels ["a", "b", "c"] "" [(1 : ℚ), 3, 2] =
      sortedEigVecCols ["a", "b", "c"] "" [(1 : ℚ), 3, 2] ∧
    (sortedColLabels ["a", "b", "c"] "" [(1 : ℚ), 3, 2]).Perm
      ["a", "b", "c"] :=
  claim_C8 [1, 3, 2] ["a", "b", "c"] "" (by decide)

theorem pairRows_swap : ∀ x y : List (Option ℚ),
    pairRows y x = (pairRows x y).map Prod.swap := by
  intro x
  induction x with
  | nil => intro y; cases y <;> simp [pairRows]
  | cons a x ih =>
    intro y
    cases y with
    | nil => simp [pairRows]
    | cons b y =>
      cases a <;> cases b <;> simpa [pairRows] using ih y

theorem meanFst_swap (s : List (ℚ × ℚ)) :
    meanFst (s.map Prod.swap) = meanSnd s := by
  simp [meanFst, meanSnd, List.map_map, Function.comp_def]

theorem meanSnd_swap (s : List (ℚ × ℚ)) :
    meanSnd (s.map Prod.swap) = meanFst s := by
  simp [meanFst, meanSnd, List.map_map, Function.comp_def]

theorem covC_swap (s : List (ℚ × ℚ)) : covC (s.map Prod.swap) = covC s := by
  unfold covC
  rw [meanFst_swap, meanSnd_swap, List.map_map]
  exact congrArg List.sum (List.map_eq_map_iff.mpr
    (fun p _ => mul_comm ((Prod.swap p).1 - meanSnd s) ((Prod.swap p).2 - meanFst s)))

theorem varFst_swap (s : List (ℚ × ℚ)) : varFst (s.map Prod.swap) = varSnd s := by
  unfold varFst varSnd
  rw [meanFst_swap, List.map_map]
  rfl

theorem varSnd_swap (s : List (ℚ × ℚ)) : varSnd (s.map Prod.swap) = varFst s := by
  unfold varFst varSnd
  rw [meanSnd_swap, List.map_map]
  rfl

theorem corrEntry_symm (x y : List (Option ℚ)) :
    corrEntry y x = corrEntry x y := by
  unfold corrEntry
  rw [pairRows_swap x y, covC_swap, varFst_swap, varSnd_swap, List.length_map,
    mul_comm (varSnd (pairRows x y)) (varFst (pairRows x y))]

theorem pairRows_self : ∀ x : List (Option ℚ),
    pairRows x x = (x.filterMap id).map (fun a => (a, a)) := by
  intro x
  induction x with
  | nil => rfl
  | cons a x ih => cases a <;> simpa [pairRows] using ih

theorem meanSnd_diag (l : List ℚ) :
    meanSnd (l.map (fun a => (a, a))) = meanFst (l.map (fun a => (a, a))) := by
  simp [meanFst, meanSnd, List.map_map, Function.comp_def]

theorem varSnd_diag (l : List ℚ) :
    varSnd (l.map (fun a => (a, a))) = varFst (l.map (fun a => (a, a))) := by
  unfold varFst varSnd
  rw [meanSnd_diag, List.map_map, List.map_map]
  rfl

theorem covC_diag (l : List ℚ) :
    covC (l.map (fun a => (a, a))) = varFst (l.map (fun a => (a, a))) := by
  unfold covC varFst
  rw [meanSnd_diag, List.map_map, List.map_map]
  exact congrArg List.sum (List.map_eq_map_iff.mpr (fun a _ => (sq _).symm))

theorem varFst_nonneg (s : List (ℚ × ℚ)) : 0 ≤ varFst s := by
  refine List.sum_nonneg (fun q hq => ?_)
  obtain ⟨p, _, rfl⟩ := List.mem_map.mp hq
  exact sq_nonneg _

theorem list_inner_sq_le {α : Type} (s : List α) (f g : α → ℚ) :
    (s.map (fun a => f a * g a)).sum ^ 2 ≤
      (s.map (fun a => f a ^ 2)).sum * (s.map (fun a => g a ^ 2)).sum := by
  rw [← Fin.sum_univ_get' s (fun a => f a * g a),
    ← Fin.sum_univ_get' s (fun a => f a ^ 2),
    ← Fin.sum_univ_get' s (fun a => g a ^ 2)]
  have h := Finset.sum_mul_sq_le_sq_mul_sq Finset.univ
    (fun i : Fin s.length => f s[i.1]) (fun i : Fin s.length => g s[i.1])
  convert h using 2

theorem covC_sq_le_var_mul_var (s : List (ℚ × ℚ)) :
    covC s ^ 2 ≤ varFst s * varSnd s :=
  list_inner_sq_le s (fun p => p.1 - meanFst s) (fun p => p.2 - meanSnd s)

/-- C9 counterexample: a column with exactly one non-missing observation
(so "≥ 1 non-missing observation per instrument" holds) has zero variance,
and `fx_returns.corr()` puts NaN — not 1.0 — on that diagonal entry. -/
theorem claim_C9_counterexample :
    ([some (1 : ℚ)].filterMap id).length = 1 ∧
    corrEntry [some (1 : ℚ)] [some 1] = none := by
  refine ⟨by decide, ?_⟩
  simp [corrEntry, pairRows, varFst, varSnd, meanFst, meanSnd, covC]

/-- C9 amended: the Builder's matrix is the Pearson pairwise-complete
correlation, and wherever an entry is defined (non-NaN, i.e. the pairwise
divisor `vx·vy` is nonzero — which on the diagonal requires at least two
distinct non-missing observations, not merely one) the matrix is exactly
symmetric, every defined entry lies in `[−1, 1]` (here: `cov² ≤ vx·vy`,
since the entry represents `cov/√(vx·vy)`), and every defined diagonal
entry is exactly 1 (`cov² = vx·vy` with `cov > 0`). -/
theorem claim_C9_amended :
    (∀ x y : List (Option ℚ), corrEntry y x = corrEntry x y) ∧
    (∀ (x y : List (Option ℚ)) (p : ℚ × ℚ),
      corrEntry x y = some p → p.1 ^ 2 ≤ p.2) ∧
    (∀ (x : List (Option ℚ)) (p : ℚ × ℚ),
      corrEntry x x = some p → p.1 ^ 2 = p.2 ∧ 0 < p.1) := by
  refine ⟨corrEntry_symm, ?_, ?_⟩
  · intro x y p h
    unfold corrEntry at h
    by_cases h0 : (pairRows x y).length = 0
    · simp [h0] at h
    · by_cases hv : varFst (pairRows x y) * varSnd (pairRows x y) = 0
      · simp [h0, hv] at h
      · simp only [h0, hv, if_false, Option.some.injEq] at h
        rw [← h]
        exact covC_sq_le_var_mul_var (pairRows x y)
  · intro x p h
    unfold corrEntry at h
    rw [pairRows_self x] at h
    set l := x.filterMap id with hl
    by_cases h0 : ((l.map (fun a => (a, a))).length = 0)
    · simp [h0] at h
    · by_cases hv : varFst (l.map (fun a => (a, a))) *
          varSnd (l.map (fun a => (a, a))) = 0
      · simp [h0, hv] at h
      · simp only [h0, hv, if_false, Option.some.injEq] at h
        rw [varSnd_diag] at h hv
        rw [covC_diag] at h
        have hvne : varFst (l.map (fun a => (a, a))) ≠ 0 := by
          intro hz
          exact hv (by rw [hz, zero_mul])
        have hpos : 0 < varFst (l.map (fun a => (a, a))) :=
          lt_of_le_of_ne (varFst_nonneg _) (Ne.symm hvne)
        rw [← h]
        exact ⟨sq _, hpos⟩

/-- Witness for C9 amended: the diagonal entry of the column
`[some 0, some 1]` is `(1/2, 1/4)`, representing `(1/2)/√(1/4) = 1`. -/
theorem claim_C9_amended_witness :
    ((1 : ℚ)/2, (1 : ℚ)/4).1 ^ 2 = ((1 : ℚ)/2, (1 : ℚ)/4).2 ∧
    0 < ((1 : ℚ)/2, (1 : ℚ)/4).1 :=
  claim_C9_amended.2.2 [some 0, some 1] (1/2, 1/4)
    (by simp [corrEntry, pairRows, varFst, varSnd, meanFst, meanSnd, covC]
        norm_num)

end ForexMatrices
